import Mathlib

/-!
Verification of the slug-generation module (`slugs.py`).

The Python module is shallowly embedded: Python strings are lists of
characters, fallible functions (those that may raise) return `Option`,
and library behaviour used by the module (regex matching of the two
character-class patterns, `str` methods, SHA-256 hexdigests) is modelled
explicitly below.
-/

namespace Slugs

/-- Python strings are modelled as lists of unicode characters. -/
abbrev PyStr := List Char

/-- `string.ascii_lowercase` -/
def asciiLowercase : PyStr := "abcdefghijklmnopqrstuvwxyz".data

/-- `string.ascii_uppercase` -/
def asciiUppercase : PyStr := "ABCDEFGHIJKLMNOPQRSTUVWXYZ".data

/-- `string.digits` -/
def asciiDigits : PyStr := "0123456789".data

/-- `_alphanum = tuple(string.ascii_letters + string.digits)` -/
def _alphanum : PyStr := asciiLowercase ++ asciiUppercase ++ asciiDigits

/-- `_alphanum_lower = tuple(string.ascii_lowercase + string.digits)` -/
def _alphanum_lower : PyStr := asciiLowercase ++ asciiDigits

/-- `_lower_plus_hyphen = _alphanum_lower + ('-',)` -/
def _lower_plus_hyphen : PyStr := _alphanum_lower ++ ['-']

/-- `_hash_length = 8` : length of the hash suffix. -/
def _hash_length : Nat := 8

/-- Full match of one-or-more characters of a class (regex `[class]+`
anchored on both sides, without the trailing-newline allowance). -/
def allInClass (cls : Char → Bool) (s : PyStr) : Bool :=
  !s.isEmpty && s.all cls

/-- Python `re.match` of a pattern of the shape `^[class]+$`: in Python,
`$` also matches just before a single trailing newline, so `"ab\n"`
matches `^[a-z]+$`. -/
def reFullMatch (cls : Char → Bool) (s : PyStr) : Bool :=
  allInClass cls s || (s.getLast? == some '\n' && allInClass cls s.dropLast)

/-- Character class of `_object_pattern = ^[a-z0-9\.-]+$` : lowercase
letters, digits, '.', and a literal '-' (the hyphen is last in the
class, hence literal). -/
def objectClassChar (c : Char) : Bool :=
  ('a' ≤ c && c ≤ 'z') || ('0' ≤ c && c ≤ '9') || c == '.' || c == '-'

/-- Character class of `_label_pattern = ^[a-z0-9\.-_]+$` with
`re.IGNORECASE`.  In `[a-z0-9\.-_]` the `\.-_` part is a character
RANGE from '.' (U+002E) to '_' (U+005F): it contains '.', '/', the
digits, ':', ';', '<', '=', '>', '?', '@', 'A'-'Z', '[', '\\', ']',
'^', '_', and does NOT contain '-' (U+002D).  `IGNORECASE` additionally
lets 'A'-'Z' match via the explicit `a-z` (already covered by the range)
and 'a'-'z' match via the range's uppercase letters (already explicit).
Non-ASCII case folding is not modelled; it only affects characters
outside ASCII and none of the properties below. -/
def labelClassChar (c : Char) : Bool :=
  ('a' ≤ c && c ≤ 'z') || ('0' ≤ c && c ≤ '9') || ('.' ≤ c && c ≤ '_')

/-- `_object_pattern.match s` (as a boolean). -/
def objectPatternMatch (s : PyStr) : Bool := reFullMatch objectClassChar s

/-- `_label_pattern.match s` (as a boolean). -/
def labelPatternMatch (s : PyStr) : Bool := reFullMatch labelClassChar s

/-- Python truthiness of an optional int argument (`None` and `0` are falsy). -/
def optNatTruthy : Option Nat → Bool
  | none => false
  | some n => n != 0

/-- Python truthiness of an optional character-tuple argument. -/
def optStrTruthy : Option PyStr → Bool
  | none => false
  | some l => !l.isEmpty

/-- Python truthiness of an optional compiled-pattern argument. -/
def optPatTruthy : Option (PyStr → Bool) → Bool
  | none => false
  | some _ => true

/-- Python `s.startswith(tuple_of_single_characters)`. -/
def startsWithAny (chars : PyStr) (s : PyStr) : Bool :=
  match s with
  | [] => false
  | c :: _ => chars.contains c

/-- Python `s.endswith(tuple_of_single_characters)`. -/
def endsWithAny (chars : PyStr) (s : PyStr) : Bool :=
  match s.getLast? with
  | none => false
  | some c => chars.contains c

/-- `_is_valid_general(s, starts_with, ends_with, pattern, min_length,
max_length)` : each constraint is checked only when its argument is
truthy, in the source's order. -/
def _is_valid_general (s : PyStr) (starts_with ends_with : Option PyStr)
    (pat : Option (PyStr → Bool)) (min_length max_length : Option Nat) : Bool :=
  if optNatTruthy min_length && decide (s.length < min_length.getD 0) then false
  else if optNatTruthy max_length && decide (max_length.getD 0 < s.length) then false
  else if optStrTruthy starts_with && !startsWithAny (starts_with.getD []) s then false
  else if optStrTruthy ends_with && !endsWithAny (ends_with.getD []) s then false
  else if optPatTruthy pat && !(pat.getD (fun _ => true)) s then false
  else true

/-- `is_valid_object_name(s)` -/
def is_valid_object_name (s : PyStr) : Bool :=
  _is_valid_general s (some _alphanum_lower) (some _alphanum_lower)
    (some objectPatternMatch) (some 1) (some 255)

/-- `is_valid_label(s)` : empty strings are valid labels. -/
def is_valid_label (s : PyStr) : Bool :=
  if s.isEmpty then true
  else
    _is_valid_general s (some _alphanum) (some _alphanum)
      (some labelPatternMatch) none (some 63)

/-- `is_valid_default(s)` -/
def is_valid_default (s : PyStr) : Bool :=
  _is_valid_general s (some _alphanum_lower) (some _alphanum_lower)
    (some objectPatternMatch) (some 1) (some 63)

/-- One step of `_hyphen_plus_pattern.sub("-", ·)` : collapse every
maximal run of two or more hyphens to a single hyphen (runs of one are
left alone, which the recursion below also does). -/
def squashHyphens : PyStr → PyStr
  | [] => []
  | [c] => [c]
  | c :: d :: rest =>
      if c == '-' && d == '-' then squashHyphens (d :: rest)
      else c :: squashHyphens (d :: rest)

/-- Python `s.rstrip("-")` : drop the maximal run of trailing hyphens. -/
def rstripHyphens : PyStr → PyStr
  | [] => []
  | c :: rest =>
      match rstripHyphens rest with
      | [] => if c == '-' then [] else [c]
      | r => c :: r

/-- `_extract_safe_name(name, max_length)`.  `Char.toLower` models
Python `str.lower` on ASCII (non-ASCII case foldings are dropped by the
following filter in any case and do not affect the claims). -/
def _extract_safe_name (name : PyStr) (max_length : Nat) : PyStr :=
  let safe1 := (name.map Char.toLower).filter (fun c => _lower_plus_hyphen.contains c)
  let safe2 := squashHyphens (safe1.dropWhile (fun c => c == '-'))
  let safe3 := rstripHyphens (safe2.take max_length)
  if safe3.isEmpty then ['x'] else safe3

/-! ### SHA-256 (model of `hashlib.sha256(...).hexdigest()`)

Words are `Nat`s kept below `2 ^ 32` by explicit reduction. -/

/-- Reduce to a 32-bit word. -/
def w32 (n : Nat) : Nat := n % 4294967296

/-- 32-bit right rotation. -/
def rotr (r x : Nat) : Nat := w32 ((x >>> r) ||| (x <<< (32 - r)))

/-- 32-bit complement. -/
def not32 (x : Nat) : Nat := x ^^^ 4294967295

def bigSigma0 (x : Nat) : Nat := (rotr 2 x) ^^^ (rotr 13 x) ^^^ (rotr 22 x)
def bigSigma1 (x : Nat) : Nat := (rotr 6 x) ^^^ (rotr 11 x) ^^^ (rotr 25 x)
def smallSigma0 (x : Nat) : Nat := (rotr 7 x) ^^^ (rotr 18 x) ^^^ (x >>> 3)
def smallSigma1 (x : Nat) : Nat := (rotr 17 x) ^^^ (rotr 19 x) ^^^ (x >>> 10)

/-- The SHA-256 round-constant table (cube-root words of the first 64
primes, per FIPS 180-4). -/
def sha256K : List Nat :=
  [0x428A2F98, 0x71374491, 0xB5C0FBCF, 0xE9B5DBA5,
   0x3956C25B, 0x59F111F1, 0x923F82A4, 0xAB1C5ED5,
   0xD807AA98, 0x12835B01, 0x243185BE, 0x550C7DC3,
   0x72BE5D74, 0x80DEB1FE, 0x9BDC06A7, 0xC19BF174,
   0xE49B69C1, 0xEFBE4786, 0x0FC19DC6, 0x240CA1CC,
   0x2DE92C6F, 0x4A7484AA, 0x5CB0A9DC, 0x76F988DA,
   0x983E5152, 0xA831C66D, 0xB00327C8, 0xBF597FC7,
   0xC6E00BF3, 0xD5A79147, 0x06CA6351, 0x14292967,
   0x27B70A85, 0x2E1B2138, 0x4D2C6DFC, 0x53380D13,
   0x650A7354, 0x766A0ABB, 0x81C2C92E, 0x92722C85,
   0xA2BFE8A1, 0xA81A664B, 0xC24B8B70, 0xC76C51A3,
   0xD192E819, 0xD6990624, 0xF40E3585, 0x106AA070,
   0x19A4C116, 0x1E376C08, 0x2748774C, 0x34B0BCB5,
   0x391C0CB3, 0x4ED8AA4A, 0x5B9CCA4F, 0x682E6FF3,
   0x748F82EE, 0x78A5636F, 0x84C87814, 0x8CC70208,
   0x90BEFFFA, 0xA4506CEB, 0xBEF9A3F7, 0xC67178F2]

/-- The eight working variables of the compression function. -/
abbrev State8 := Nat × Nat × Nat × Nat × Nat × Nat × Nat × Nat

/-- The SHA-256 initial hash value (square-root words of the first eight
primes, per FIPS 180-4). -/
def sha256init : State8 :=
  (0x6A09E667, 0xBB67AE85, 0x3C6EF372, 0xA54FF53A,
   0x510E527F, 0x9B05688C, 0x1F83D9AB, 0x5BE0CD19)

/-- One round of the compression function. -/
def sha256round : State8 → Nat × Nat → State8
  | (a, b, c, d, e, f, g, h), (k, w) =>
    let t1 := w32 (h + bigSigma1 e + ((e &&& f) ^^^ (not32 e &&& g)) + k + w)
    let t2 := w32 (bigSigma0 a + ((a &&& b) ^^^ (a &&& c) ^^^ (b &&& c)))
    (w32 (t1 + t2), a, b, c, w32 (d + t1), e, f, g)

/-- Extend a 16-word block to the 64-word message schedule. -/
def extendSchedule (block : List Nat) : List Nat :=
  (List.range 48).foldl
    (fun ws _ =>
      let n := ws.length
      let x := w32 (smallSigma1 (ws.getD (n - 2) 0) + ws.getD (n - 7) 0 +
        smallSigma0 (ws.getD (n - 15) 0) + ws.getD (n - 16) 0)
      ws ++ [x])
    block

/-- Process one 16-word block. -/
def sha256compress (st : State8) (block : List Nat) : State8 :=
  let r := (sha256K.zip (extendSchedule block)).foldl sha256round st
  match st, r with
  | (a, b, c, d, e, f, g, h), (a', b', c', d', e', f', g', h') =>
    (w32 (a + a'), w32 (b + b'), w32 (c + c'), w32 (d + d'),
     w32 (e + e'), w32 (f + f'), w32 (g + g'), w32 (h + h'))

/-- SHA-256 padding of a byte string. -/
def sha256pad (msg : List Nat) : List Nat :=
  let bitLen := 8 * msg.length
  let zeros := (119 - msg.length % 64) % 64
  msg ++ [0x80] ++ List.replicate zeros 0 ++
    (List.range 8).map (fun i => (bitLen >>> (8 * (7 - i))) % 256)

/-- Big-endian 4-byte groups to 32-bit words. -/
def bytesToWords : List Nat → List Nat
  | b0 :: b1 :: b2 :: b3 :: rest => (((b0 * 256 + b1) * 256 + b2) * 256 + b3) :: bytesToWords rest
  | _ => []

/-- Split a padded byte string into 16-word blocks. -/
def toBlocks (l : List Nat) : List (List Nat) :=
  (List.range (l.length / 64)).map (fun i => bytesToWords ((l.drop (64 * i)).take 64))

/-- The lowercase hex digits. -/
def hexDigitChars : PyStr := "0123456789abcdef".data

/-- A nibble as a lowercase hex character. -/
def nibbleChar (n : Nat) : Char := hexDigitChars.getD (n % 16) '0'

/-- A 32-bit word as 8 hex characters, big-endian. -/
def wordHex (w : Nat) : PyStr :=
  (List.range 8).map (fun i => nibbleChar ((w >>> (4 * (7 - i))) % 16))

/-- A final state as 64 hex characters. -/
def hexState : State8 → PyStr
  | (a, b, c, d, e, f, g, h) =>
    wordHex a ++ wordHex b ++ wordHex c ++ wordHex d ++
    wordHex e ++ wordHex f ++ wordHex g ++ wordHex h

/-- `hashlib.sha256(msg).hexdigest()` over a byte string. -/
def sha256hex (msg : List Nat) : PyStr :=
  hexState ((toBlocks (sha256pad msg)).foldl sha256compress sha256init)

/-- UTF-8 encoding of one unicode scalar value (`str.encode("utf8")`,
per character). -/
def utf8Char (c : Char) : List Nat :=
  let n := c.toNat
  if n < 0x80 then [n]
  else if n < 0x800 then [0xC0 ||| (n >>> 6), 0x80 ||| (n &&& 0x3F)]
  else if n < 0x10000 then
    [0xE0 ||| (n >>> 12), 0x80 ||| ((n >>> 6) &&& 0x3F), 0x80 ||| (n &&& 0x3F)]
  else
    [0xF0 ||| (n >>> 18), 0x80 ||| ((n >>> 12) &&& 0x3F),
     0x80 ||| ((n >>> 6) &&& 0x3F), 0x80 ||| (n &&& 0x3F)]

/-- `name.encode("utf8")`. -/
def utf8Encode (s : PyStr) : List Nat := (s.map utf8Char).flatten

/-! ### The three slug operations -/

/-- `'--' in name` : whether the string contains two consecutive hyphens. -/
def hasDoubleHyphen : PyStr → Bool
  | [] => false
  | [_] => false
  | c :: d :: rest => (c == '-' && d == '-') || hasDoubleHyphen (d :: rest)

/-- `strip_and_hash(name, max_length=32)`.  Raising `ValueError` is
modelled as `none`.  `max_length` is a Python int, so it may be
negative. -/
def strip_and_hash (name : PyStr) (max_length : Int := 32) : Option PyStr :=
  let name_length : Int := max_length - (_hash_length + 3)
  if name_length < 1 then none
  else
    let name_hash := (sha256hex (utf8Encode name)).take _hash_length
    let safe_name := _extract_safe_name name name_length.toNat
    some (safe_name ++ "---".data ++ name_hash)

/-- `max_length or 32` : Python `or` takes the default when
`max_length` is `None` or `0` (both falsy). -/
def pyOr32 (max_length : Option Int) : Int :=
  match max_length with
  | none => 32
  | some v => if v == 0 then 32 else v

/-- `safe_slug(name, is_valid=is_valid_default, max_length=None)`. -/
def safe_slug (name : PyStr) (is_valid : PyStr → Bool := is_valid_default)
    (max_length : Option Int := none) : Option PyStr :=
  if hasDoubleHyphen name then strip_and_hash name (pyOr32 max_length)
  else if is_valid name &&
      (match max_length with
       | none => true
       | some m => decide ((name.length : Int) ≤ m)) then
    some name
  else strip_and_hash name (pyOr32 max_length)

/-- Python `sep.join(parts)`. -/
def pyJoin (sep : PyStr) : List PyStr → PyStr
  | [] => []
  | [s] => s
  | s :: rest => s ++ sep ++ pyJoin sep rest

/-- `multi_slug(names, max_length=48)` : one hash over all components,
joined into the digest input with the byte `0xFF` between consecutive
components; components joined with `--` in the output.  The empty list
(an `IndexError` on `names[0]` in Python) and the `ValueError` for too
small budgets are modelled as `none`.  `//` is Python floor division
(`Int.fdiv`). -/
def multi_slug (names : List PyStr) (max_length : Int := 48) : Option PyStr :=
  match names with
  | [] => none
  | n0 :: rest =>
    let msg := utf8Encode n0 ++ (rest.map (fun n => 0xFF :: utf8Encode n)).flatten
    let hash := (sha256hex msg).take _hash_length
    let available_chars : Int := max_length - (_hash_length + 1)
    let per_name : Int := Int.fdiv available_chars (n0 :: rest).length
    let name_max_length : Int := per_name - 2
    if name_max_length < 2 then none
    else
      let name_slugs := (n0 :: rest).map (fun n => _extract_safe_name n name_max_length.toNat)
      some (pyJoin "--".data name_slugs ++ "---".data ++ hash)

/-! ### Spec-side predicates and counting functions -/

/-- The output charset `[a-z0-9-]` promised by the spec. -/
def slugChar (c : Char) : Bool :=
  "abcdefghijklmnopqrstuvwxyz0123456789-".data.contains c

/-- Number of positions at which the substring `--` occurs. -/
def countDouble : PyStr → Nat
  | c :: d :: rest => (if c == '-' && d == '-' then 1 else 0) + countDouble (d :: rest)
  | _ => 0

/-- Number of positions at which the substring `---` occurs. -/
def countTriple : PyStr → Nat
  | c :: d :: e :: rest =>
      (if c == '-' && d == '-' && e == '-' then 1 else 0) + countTriple (d :: e :: rest)
  | _ => 0

/-! ### Structural lemmas about the extractor pipeline -/

theorem lph_eq : _lower_plus_hyphen = "abcdefghijklmnopqrstuvwxyz0123456789-".data := by
  decide

theorem squash_sublist (l : PyStr) : List.Sublist (squashHyphens l) l := by
  induction l with
  | nil => simp [squashHyphens]
  | cons c rest ih =>
    cases rest with
    | nil => simp [squashHyphens]
    | cons d t =>
      rw [squashHyphens]
      split
      · exact ih.trans (List.sublist_cons_self _ _)
      · exact List.Sublist.cons₂ _ ih

theorem squash_ne_nil (l : PyStr) (h : l ≠ []) : squashHyphens l ≠ [] := by
  induction l with
  | nil => exact absurd rfl h
  | cons c rest ih =>
    cases rest with
    | nil => simp [squashHyphens]
    | cons d t =>
      rw [squashHyphens]
      split
      · exact ih (by simp)
      · simp

theorem squash_head? (l : PyStr) : (squashHyphens l).head? = l.head? := by
  induction l with
  | nil => rfl
  | cons c rest ih =>
    cases rest with
    | nil => rfl
    | cons d t =>
      rw [squashHyphens]
      split
      · next hcd =>
        simp only [Bool.and_eq_true, beq_iff_eq] at hcd
        rw [ih]
        simp [hcd.1, hcd.2]
      · rfl

theorem squash_noDouble (l : PyStr) : hasDoubleHyphen (squashHyphens l) = false := by
  induction l with
  | nil => rfl
  | cons c rest ih =>
    cases rest with
    | nil => rfl
    | cons d t =>
      rw [squashHyphens]
      split
      · exact ih
      · next hcd =>
        cases hq : squashHyphens (d :: t) with
        | nil => exact absurd hq (squash_ne_nil _ (by simp))
        | cons q qt =>
          have hqd : q = d := by
            have h2 := squash_head? (d :: t)
            rw [hq] at h2
            simpa using h2
          have hdq : hasDoubleHyphen (c :: q :: qt)
              = (((c == '-') && (q == '-')) || hasDoubleHyphen (q :: qt)) := rfl
          rw [hdq, ← hq, ih, hqd]
          simp only [Bool.or_false]
          simp only [Bool.and_eq_true, beq_iff_eq, not_and] at hcd ⊢
          cases hcb : (c == '-') with
          | false => rfl
          | true =>
            cases hdb : (d == '-') with
            | false => simp
            | true =>
              exact absurd (by simpa using hdb) (hcd (by simpa using hcb))

theorem take_pre (n : Nat) (l : PyStr) : l.take n <+: l :=
  ⟨l.drop n, List.take_append_drop n l⟩

theorem rstrip_pre (l : PyStr) : rstripHyphens l <+: l := by
  induction l with
  | nil => exact ⟨[], rfl⟩
  | cons c rest ih =>
    rw [rstripHyphens]
    cases hr : rstripHyphens rest with
    | nil =>
      by_cases hc : (c == '-') = true
      · simp only [hc, if_true]
        exact ⟨c :: rest, rfl⟩
      · simp only [hc, if_false]
        exact ⟨rest, rfl⟩
    | cons r rt =>
      obtain ⟨u, hu⟩ := ih
      rw [hr] at hu
      exact ⟨u, by simp [← hu]⟩

theorem rstrip_last_ne (l : PyStr) (a : Char) (h : (rstripHyphens l).getLast? = some a) :
    a ≠ '-' := by
  induction l with
  | nil => simp [rstripHyphens] at h
  | cons c rest ih =>
    rw [rstripHyphens] at h
    cases hr : rstripHyphens rest with
    | nil =>
      rw [hr] at h
      by_cases hc : (c == '-') = true
      · simp [hc] at h
      · rw [Bool.not_eq_true] at hc
        rw [hc] at h
        simp at h
        subst h
        simpa using hc
    | cons r rt =>
      rw [hr] at h
      rw [List.getLast?_cons_cons] at h
      exact ih (hr ▸ h)

theorem pre_head? {l₁ l₂ : PyStr} (h : l₁ <+: l₂) (hne : l₁ ≠ []) :
    l₂.head? = l₁.head? := by
  obtain ⟨t, ht⟩ := h
  cases l₁ with
  | nil => exact absurd rfl hne
  | cons c cs => rw [← ht]; rfl

theorem hasDouble_append {l t : PyStr} (h : hasDoubleHyphen l = true) :
    hasDoubleHyphen (l ++ t) = true := by
  induction l with
  | nil => simp [hasDoubleHyphen] at h
  | cons c rest ih =>
    cases rest with
    | nil => simp [hasDoubleHyphen] at h
    | cons d u =>
      rw [hasDoubleHyphen] at h
      rcases Bool.or_eq_true_iff.mp h with h1 | h2
      · show hasDoubleHyphen (c :: d :: (u ++ t)) = true
        rw [hasDoubleHyphen, h1, Bool.true_or]
      · have := ih h2
        show hasDoubleHyphen (c :: d :: (u ++ t)) = true
        rw [hasDoubleHyphen]
        rw [List.cons_append] at this
        rw [this, Bool.or_true]

theorem hasDouble_of_pre {l₁ l₂ : PyStr} (h : l₁ <+: l₂)
    (h2 : hasDoubleHyphen l₂ = false) : hasDoubleHyphen l₁ = false := by
  obtain ⟨t, ht⟩ := h
  cases hd : hasDoubleHyphen l₁ with
  | false => rfl
  | true =>
    rw [← ht, hasDouble_append hd] at h2
    exact h2

theorem sublist_all {l₁ l₂ : PyStr} {p : Char → Bool} (h : List.Sublist l₁ l₂)
    (h2 : l₂.all p = true) : l₁.all p = true := by
  rw [List.all_eq_true] at h2 ⊢
  exact fun a ha => h2 a (h.subset ha)

theorem pre_all {l₁ l₂ : PyStr} {p : Char → Bool} (h : l₁ <+: l₂)
    (h2 : l₂.all p = true) : l₁.all p = true :=
  sublist_all h.sublist h2

theorem dropWhile_head? {p : Char → Bool} {l : PyStr} {a : Char}
    (h : (l.dropWhile p).head? = some a) : p a = false := by
  induction l with
  | nil => simp [List.dropWhile] at h
  | cons c rest ih =>
    rw [List.dropWhile] at h
    cases hp : p c with
    | true => rw [hp] at h; exact ih h
    | false =>
      rw [hp] at h
      simp at h
      rw [← h, hp]

/-! ### The extractor's guarantees -/

theorem extract_ne_nil (name : PyStr) (m : Nat) : _extract_safe_name name m ≠ [] := by
  rw [_extract_safe_name]
  split
  · simp
  · next h => simpa using h

theorem extract_all (name : PyStr) (m : Nat) :
    (_extract_safe_name name m).all slugChar = true := by
  rw [_extract_safe_name]
  split
  · decide
  · next h =>
    apply pre_all (rstrip_pre _)
    apply pre_all (take_pre _ _)
    apply sublist_all (squash_sublist _)
    apply sublist_all (List.dropWhile_sublist _)
    rw [List.all_eq_true]
    intro a ha
    have := (List.mem_filter.mp ha).2
    rw [lph_eq] at this
    exact this

theorem extract_head (name : PyStr) (m : Nat) (a : Char)
    (h : (_extract_safe_name name m).head? = some a) : a ≠ '-' := by
  rw [_extract_safe_name] at h
  split at h
  · simp at h
    subst h
    decide
  · next hne =>
    set f1 := ((name.map Char.toLower).filter (fun c => _lower_plus_hyphen.contains c)).dropWhile
      (fun c => c == '-') with hf1
    have hpre : (squashHyphens f1).take m <+: squashHyphens f1 := take_pre _ _
    have hr : rstripHyphens ((squashHyphens f1).take m) <+: (squashHyphens f1).take m :=
      rstrip_pre _
    have hne' : rstripHyphens ((squashHyphens f1).take m) ≠ [] := by simpa using hne
    have h1 : ((squashHyphens f1).take m).head? = some a := by
      rw [pre_head? hr hne']
      exact h
    have hne2 : (squashHyphens f1).take m ≠ [] := by
      intro hc
      rw [hc] at h1
      simp at h1
    have h2 : (squashHyphens f1).head? = some a := by
      rw [pre_head? hpre hne2]
      exact h1
    rw [squash_head? f1] at h2
    have := dropWhile_head? h2
    simpa using this

theorem extract_last (name : PyStr) (m : Nat) (a : Char)
    (h : (_extract_safe_name name m).getLast? = some a) : a ≠ '-' := by
  rw [_extract_safe_name] at h
  split at h
  · simp at h
    subst h
    decide
  · exact rstrip_last_ne _ _ h

theorem extract_noDouble (name : PyStr) (m : Nat) :
    hasDoubleHyphen (_extract_safe_name name m) = false := by
  rw [_extract_safe_name]
  split
  · rfl
  · apply hasDouble_of_pre (rstrip_pre _)
    apply hasDouble_of_pre (take_pre _ _)
    exact squash_noDouble _

theorem extract_length (name : PyStr) (m : Nat) (h : 1 ≤ m) :
    (_extract_safe_name name m).length ≤ m := by
  rw [_extract_safe_name]
  split
  · simpa using h
  · calc (rstripHyphens (_ : PyStr)).length ≤ _ := (rstrip_pre _).length_le
      _ ≤ m := List.length_take_le _ _

/-! ### Hexdigest facts -/

theorem nibbleChar_mem (n : Nat) : nibbleChar n ∈ hexDigitChars := by
  have h16 : hexDigitChars.length = 16 := rfl
  rw [nibbleChar, List.getD_eq_getElem _ _ (by rw [h16]; exact Nat.mod_lt _ (by decide))]
  exact List.getElem_mem _

theorem wordHex_mem {w : Nat} {c : Char} (h : c ∈ wordHex w) : c ∈ hexDigitChars := by
  rw [wordHex] at h
  obtain ⟨i, _, hc⟩ := List.mem_map.mp h
  rw [← hc]
  exact nibbleChar_mem _

theorem wordHex_length (w : Nat) : (wordHex w).length = 8 := by simp [wordHex]

theorem hexState_length (st : State8) : (hexState st).length = 64 := by
  obtain ⟨a, b, c, d, e, f, g, h⟩ := st
  simp [hexState, wordHex_length]

theorem hexState_mem {st : State8} {c : Char} (h : c ∈ hexState st) : c ∈ hexDigitChars := by
  obtain ⟨x1, x2, x3, x4, x5, x6, x7, x8⟩ := st
  simp only [hexState, List.mem_append] at h
  rcases h with ((((((h | h) | h) | h) | h) | h) | h) | h <;> exact wordHex_mem h

theorem sha256hex_length (msg : List Nat) : (sha256hex msg).length = 64 :=
  hexState_length _

theorem sha256hex_mem {msg : List Nat} {c : Char} (h : c ∈ sha256hex msg) :
    c ∈ hexDigitChars :=
  hexState_mem h

theorem hashTake_length (msg : List Nat) : ((sha256hex msg).take 8).length = 8 := by
  rw [List.length_take, sha256hex_length]
  decide

theorem hashTake_mem {msg : List Nat} {c : Char} (h : c ∈ (sha256hex msg).take 8) :
    c ∈ hexDigitChars :=
  sha256hex_mem (List.mem_of_mem_take h)

theorem hashTake_ne_nil (msg : List Nat) : (sha256hex msg).take 8 ≠ [] := by
  intro hc
  have := hashTake_length msg
  rw [hc] at this
  simp at this

/-! ### Character-set bridges (checked by enumeration) -/

theorem hex_slugChar : ∀ c ∈ hexDigitChars, slugChar c = true := by decide

theorem hex_not_hyphen : ∀ c ∈ hexDigitChars, c ≠ '-' := by decide

theorem hex_alphanum_lower : ∀ c ∈ hexDigitChars, _alphanum_lower.contains c = true := by
  decide

theorem slug_mem {c : Char} (h : slugChar c = true) :
    c ∈ "abcdefghijklmnopqrstuvwxyz0123456789-".data := by
  rw [slugChar] at h
  exact List.elem_iff.mp h

theorem slug_object : ∀ c ∈ "abcdefghijklmnopqrstuvwxyz0123456789-".data,
    objectClassChar c = true := by decide

theorem slug_alphanum_lower : ∀ c ∈ "abcdefghijklmnopqrstuvwxyz0123456789-".data,
    c ≠ '-' → _alphanum_lower.contains c = true := by decide

/-! ### Output shape of the hashing operations -/

theorem strip_and_hash_eq (name : PyStr) (M : Int) (h : 12 ≤ M) :
    strip_and_hash name M =
      some (_extract_safe_name name (M - 11).toNat ++
        ('-' :: '-' :: '-' :: (sha256hex (utf8Encode name)).take 8)) := by
  simp only [strip_and_hash, _hash_length]
  split
  · next hlt =>
    exfalso
    simp only [Nat.cast_ofNat, Nat.reduceAdd] at hlt
    omega
  · rw [List.append_assoc]
    rfl

/-! ### Counting hyphen pairs and triples -/

theorem countDouble_hyphen_free : ∀ ys : PyStr, (∀ c ∈ ys, c ≠ '-') →
    countDouble ys = 0 := by
  intro ys
  induction ys with
  | nil => intro _; rfl
  | cons y yt ih =>
    intro h
    cases yt with
    | nil => rfl
    | cons z zt =>
      show (if y == '-' && z == '-' then 1 else 0) + countDouble (z :: zt) = 0
      have hy : (y == '-') = false := by simpa using h y (by simp)
      rw [hy, Bool.false_and, if_neg (by simp), Nat.zero_add]
      exact ih fun c hc => h c (List.mem_cons_of_mem _ hc)

theorem countDouble_one_hyphen (ys : PyStr) (h : ∀ c ∈ ys, c ≠ '-') :
    countDouble ('-' :: ys) = 0 := by
  cases ys with
  | nil => rfl
  | cons y yt =>
    show (if ('-' : Char) == '-' && y == '-' then 1 else 0) + countDouble (y :: yt) = 0
    have hy : (y == '-') = false := by simpa using h y (by simp)
    rw [hy, Bool.and_false, if_neg (by simp), Nat.zero_add]
    exact countDouble_hyphen_free _ h

theorem countDouble_delim (hs : PyStr) (h : ∀ c ∈ hs, c ≠ '-') :
    countDouble ('-' :: '-' :: '-' :: hs) = 2 := by
  show (if ('-' : Char) == '-' && ('-' : Char) == '-' then 1 else 0)
      + countDouble ('-' :: '-' :: hs) = 2
  rw [if_pos (by decide)]
  show 1 + ((if ('-' : Char) == '-' && ('-' : Char) == '-' then 1 else 0)
      + countDouble ('-' :: hs)) = 2
  rw [if_pos (by decide), countDouble_one_hyphen hs h]

theorem countDouble_append_skip (ys : PyStr) : ∀ xs : PyStr,
    hasDoubleHyphen xs = false → (∀ a, xs.getLast? = some a → a ≠ '-') →
    countDouble (xs ++ ys) = countDouble ys := by
  intro xs
  induction xs with
  | nil => intro _ _; rfl
  | cons c rest ih =>
    intro hnd hlast
    cases rest with
    | nil =>
      have hc : (c == '-') = false := by simpa using hlast c rfl
      cases ys with
      | nil => rfl
      | cons y yt =>
        show (if c == '-' && y == '-' then 1 else 0) + countDouble (y :: yt)
            = countDouble (y :: yt)
        rw [hc, Bool.false_and, if_neg (by simp), Nat.zero_add]
    | cons d u =>
      rw [hasDoubleHyphen] at hnd
      have hpair : ((c == '-') && (d == '-')) = false :=
        (Bool.or_eq_false_iff.mp hnd).1
      have hnd' : hasDoubleHyphen (d :: u) = false :=
        (Bool.or_eq_false_iff.mp hnd).2
      have hlast' : ∀ a, (d :: u).getLast? = some a → a ≠ '-' := by
        intro a ha
        exact hlast a (by rw [List.getLast?_cons_cons]; exact ha)
      show (if c == '-' && d == '-' then 1 else 0) + countDouble ((d :: u) ++ ys)
          = countDouble ys
      rw [hpair, if_neg (by simp), ih hnd' hlast', Nat.zero_add]

theorem countTriple_hyphen_free : ∀ ys : PyStr, (∀ c ∈ ys, c ≠ '-') →
    countTriple ys = 0 := by
  intro ys
  induction ys with
  | nil => intro _; rfl
  | cons y yt ih =>
    intro h
    cases yt with
    | nil => rfl
    | cons z zt =>
      cases zt with
      | nil => rfl
      | cons w wt =>
        show (if y == '-' && z == '-' && w == '-' then 1 else 0)
            + countTriple (z :: w :: wt) = 0
        have hy : (y == '-') = false := by simpa using h y (by simp)
        rw [hy, Bool.false_and, if_neg (by simp), Nat.zero_add]
        exact ih fun c hc => h c (List.mem_cons_of_mem _ hc)

theorem countTriple_delim (hs : PyStr) (h : ∀ c ∈ hs, c ≠ '-') :
    countTriple ('-' :: '-' :: '-' :: hs) = 1 := by
  cases hs with
  | nil => decide
  | cons h0 ht =>
    have hh0 : (h0 == '-') = false := by simpa using h h0 (by simp)
    show (if ('-' : Char) == '-' && ('-' : Char) == '-' && ('-' : Char) == '-'
        then 1 else 0) + countTriple ('-' :: '-' :: h0 :: ht) = 1
    rw [if_pos (by decide)]
    show 1 + ((if ('-' : Char) == '-' && ('-' : Char) == '-' && h0 == '-'
        then 1 else 0) + countTriple ('-' :: h0 :: ht)) = 1
    rw [hh0, Bool.and_false, if_neg (by simp)]
    cases ht with
    | nil => rfl
    | cons h1 ht2 =>
      show 1 + (0 + ((if ('-' : Char) == '-' && h0 == '-' && h1 == '-'
          then 1 else 0) + countTriple (h0 :: h1 :: ht2))) = 1
      rw [hh0]
      rw [countTriple_hyphen_free (h0 :: h1 :: ht2) h]
      simp

theorem countTriple_append_skip (ys : PyStr) : ∀ xs : PyStr,
    hasDoubleHyphen xs = false → (∀ a, xs.getLast? = some a → a ≠ '-') →
    countTriple (xs ++ ys) = countTriple ys := by
  intro xs
  induction xs with
  | nil => intro _ _; rfl
  | cons c rest ih =>
    intro hnd hlast
    cases rest with
    | nil =>
      have hc : (c == '-') = false := by simpa using hlast c rfl
      cases ys with
      | nil => rfl
      | cons y yt =>
        cases yt with
        | nil => rfl
        | cons z zt =>
          show (if c == '-' && y == '-' && z == '-' then 1 else 0)
              + countTriple (y :: z :: zt) = countTriple (y :: z :: zt)
          rw [hc, Bool.false_and, if_neg (by simp), Nat.zero_add]
    | cons d u =>
      rw [hasDoubleHyphen] at hnd
      have hpair : ((c == '-') && (d == '-')) = false :=
        (Bool.or_eq_false_iff.mp hnd).1
      have hnd' : hasDoubleHyphen (d :: u) = false :=
        (Bool.or_eq_false_iff.mp hnd).2
      have hlast' : ∀ a, (d :: u).getLast? = some a → a ≠ '-' := by
        intro a ha
        exact hlast a (by rw [List.getLast?_cons_cons]; exact ha)
      show countTriple (c :: d :: (u ++ ys)) = countTriple ys
      cases hud : u ++ ys with
      | nil =>
        have hy : ys = [] := (List.append_eq_nil.mp hud).2
        subst hy
        rfl
      | cons e t =>
        show (if c == '-' && d == '-' && e == '-' then 1 else 0)
            + countTriple (d :: e :: t) = countTriple ys
        rw [hpair, Bool.false_and, if_neg (by simp), Nat.zero_add]
        have hde : d :: e :: t = (d :: u) ++ ys := by rw [List.cons_append, hud]
        rw [hde, ih hnd' hlast']

theorem hex_object : ∀ c ∈ hexDigitChars, objectClassChar c = true := by decide

theorem strip_some_M {name : PyStr} {M : Int} {out : PyStr}
    (h : strip_and_hash name M = some out) : 12 ≤ M := by
  simp only [strip_and_hash, _hash_length] at h
  split at h
  · exact absurd h (by simp)
  · next hc =>
    push_cast at hc
    omega

theorem strip_out {name : PyStr} {M : Int} {out : PyStr}
    (h : strip_and_hash name M = some out) :
    out = _extract_safe_name name (M - 11).toNat ++
      ('-' :: '-' :: '-' :: (sha256hex (utf8Encode name)).take 8) := by
  have hM := strip_some_M h
  rw [strip_and_hash_eq name M hM] at h
  exact (Option.some.inj h).symm

theorem multi_slug_eq (n0 : PyStr) (rest : List PyStr) (M : Int)
    (h : ¬ (Int.fdiv (M - 9) ((n0 :: rest).length : Int) - 2 < 2)) :
    multi_slug (n0 :: rest) M =
      some (pyJoin "--".data ((n0 :: rest).map (fun n =>
          _extract_safe_name n (Int.fdiv (M - 9) ((n0 :: rest).length : Int) - 2).toNat)) ++
        ('-' :: '-' :: '-' ::
          (sha256hex (utf8Encode n0 ++
            (rest.map (fun n => 0xFF :: utf8Encode n)).flatten)).take 8)) := by
  simp only [multi_slug, _hash_length]
  split
  · next hlt =>
    exfalso
    push_cast at hlt
    exact h hlt
  · rw [List.append_assoc]
    rfl

theorem multi_some_budget {names : List PyStr} {M : Int} {out : PyStr}
    (h : multi_slug names M = some out) :
    names ≠ [] ∧ ¬ (Int.fdiv (M - 9) (names.length : Int) - 2 < 2) := by
  cases names with
  | nil => exact absurd h (by simp [multi_slug])
  | cons n0 rest =>
    refine ⟨by simp, ?_⟩
    simp only [multi_slug, _hash_length] at h
    split at h
    · exact absurd h (by simp)
    · next hc =>
      push_cast at hc
      exact hc

/-! ### Joining components -/

theorem pyJoin_head? (sep : PyStr) (s : PyStr) (rest : List PyStr) (h : s ≠ []) :
    (pyJoin sep (s :: rest)).head? = s.head? := by
  cases rest with
  | nil => rfl
  | cons r rt =>
    show ((s ++ sep) ++ pyJoin sep (r :: rt)).head? = s.head?
    rw [List.append_assoc, List.head?_append_of_ne_nil _ h]

theorem pyJoin_all {p : Char → Bool} (sep : PyStr) (hsep : sep.all p = true) :
    ∀ slugs : List PyStr, (∀ s ∈ slugs, s.all p = true) →
      (pyJoin sep slugs).all p = true := by
  intro slugs
  induction slugs with
  | nil => intro _; rfl
  | cons s rest ih =>
    intro h
    cases rest with
    | nil => exact h s (by simp)
    | cons r rt =>
      show ((s ++ sep) ++ pyJoin sep (r :: rt)).all p = true
      rw [List.all_append, List.all_append]
      simp only [Bool.and_eq_true]
      exact ⟨⟨h s (by simp), hsep⟩, ih fun t ht => h t (List.mem_cons_of_mem _ ht)⟩

theorem countDouble_two_skip {z : PyStr} (hz : ∀ a, z.head? = some a → a ≠ '-') :
    countDouble ('-' :: '-' :: z) = 1 + countDouble z := by
  cases z with
  | nil => rfl
  | cons z0 zt =>
    have h0 : (z0 == '-') = false := by simpa using hz z0 rfl
    show (if ('-' : Char) == '-' && ('-' : Char) == '-' then 1 else 0)
        + countDouble ('-' :: z0 :: zt) = 1 + countDouble (z0 :: zt)
    rw [if_pos (by decide)]
    show 1 + ((if ('-' : Char) == '-' && z0 == '-' then 1 else 0)
        + countDouble (z0 :: zt)) = 1 + countDouble (z0 :: zt)
    rw [h0, Bool.and_false, if_neg (by simp), Nat.zero_add]

theorem countDouble_join (hs : PyStr) (hhs : ∀ c ∈ hs, c ≠ '-') :
    ∀ slugs : List PyStr,
      (∀ s ∈ slugs, s ≠ [] ∧ hasDoubleHyphen s = false ∧
        (∀ a, s.head? = some a → a ≠ '-') ∧ (∀ a, s.getLast? = some a → a ≠ '-')) →
      slugs ≠ [] →
      countDouble (pyJoin "--".data slugs ++ ('-' :: '-' :: '-' :: hs))
        = slugs.length + 1 := by
  intro slugs
  induction slugs with
  | nil => intro _ hne; exact absurd rfl hne
  | cons s rest ih =>
    intro hp _
    obtain ⟨hne, hnd, hhead, hlast⟩ := hp s (by simp)
    cases rest with
    | nil =>
      show countDouble (s ++ ('-' :: '-' :: '-' :: hs)) = 2
      rw [countDouble_append_skip _ s hnd hlast]
      exact countDouble_delim hs hhs
    | cons s2 rest2 =>
      obtain ⟨hne2, _, hhead2, _⟩ := hp s2 (by simp)
      have hJ : (pyJoin "--".data (s2 :: rest2)).head? = s2.head? :=
        pyJoin_head? _ _ _ hne2
      have hJne : pyJoin "--".data (s2 :: rest2) ≠ [] := by
        intro hcon
        rw [hcon] at hJ
        cases s2 with
        | nil => exact hne2 rfl
        | cons a t => simp at hJ
      have hz : ∀ a, ((pyJoin "--".data (s2 :: rest2)) ++ ('-' :: '-' :: '-' :: hs)).head?
          = some a → a ≠ '-' := by
        intro a ha
        rw [List.head?_append_of_ne_nil _ hJne, hJ] at ha
        exact hhead2 a ha
      show countDouble (((s ++ "--".data) ++ pyJoin "--".data (s2 :: rest2))
          ++ ('-' :: '-' :: '-' :: hs)) = (s2 :: rest2).length + 1 + 1
      rw [List.append_assoc, List.append_assoc,
        countDouble_append_skip _ s hnd hlast]
      show countDouble ('-' :: '-' :: (pyJoin "--".data (s2 :: rest2)
          ++ ('-' :: '-' :: '-' :: hs))) = (s2 :: rest2).length + 1 + 1
      rw [countDouble_two_skip hz,
        ih (fun t ht => hp t (List.mem_cons_of_mem _ ht)) (by simp)]
      omega

/-! ### Assembled output properties -/

theorem hashTake_not_hyphen (msg : List Nat) :
    ∀ c ∈ (sha256hex msg).take 8, c ≠ '-' :=
  fun c hc => hex_not_hyphen c (hashTake_mem hc)

theorem strip_countDouble {name : PyStr} {M : Int} {out : PyStr}
    (h : strip_and_hash name M = some out) : countDouble out = 2 := by
  rw [strip_out h,
    countDouble_append_skip _ _ (extract_noDouble _ _) (fun a ha => extract_last _ _ a ha)]
  exact countDouble_delim _ (hashTake_not_hyphen _)

theorem strip_countTriple {name : PyStr} {M : Int} {out : PyStr}
    (h : strip_and_hash name M = some out) : countTriple out = 1 := by
  rw [strip_out h,
    countTriple_append_skip _ _ (extract_noDouble _ _) (fun a ha => extract_last _ _ a ha)]
  exact countTriple_delim _ (hashTake_not_hyphen _)

theorem strip_ne_nil {name : PyStr} {M : Int} {out : PyStr}
    (h : strip_and_hash name M = some out) : out ≠ [] := by
  rw [strip_out h]
  intro hc
  exact extract_ne_nil name (M - 11).toNat (List.append_eq_nil.mp hc).1

theorem strip_all_slug {name : PyStr} {M : Int} {out : PyStr}
    (h : strip_and_hash name M = some out) : out.all slugChar = true := by
  rw [strip_out h, List.all_append]
  simp only [Bool.and_eq_true]
  refine ⟨extract_all _ _, ?_⟩
  simp only [List.all_cons, Bool.and_eq_true]
  refine ⟨by decide, by decide, by decide, ?_⟩
  exact List.all_eq_true.mpr fun c hc => hex_slugChar c (hashTake_mem hc)

theorem strip_length {name : PyStr} {M : Int} {out : PyStr}
    (h : strip_and_hash name M = some out) : (out.length : Int) ≤ M := by
  have hM := strip_some_M h
  rw [strip_out h, List.length_append]
  have h1 := extract_length name (M - 11).toNat (by omega)
  have h2 : (('-' :: '-' :: '-' :: (sha256hex (utf8Encode name)).take 8) : PyStr).length
      = 11 := by
    rw [List.length_cons, List.length_cons, List.length_cons, hashTake_length]
  rw [h2]
  push_cast
  omega

theorem strip_valid_general {name : PyStr} {M : Int} {out : PyStr}
    (h : strip_and_hash name M = some out) (mx : Nat) (hmx : out.length ≤ mx) :
    _is_valid_general out (some _alphanum_lower) (some _alphanum_lower)
      (some objectPatternMatch) (some 1) (some mx) = true := by
  have hsh := strip_out h
  have hne := strip_ne_nil h
  have h1 : decide (out.length < 1) = false := by
    simp only [decide_eq_false_iff_not, Nat.not_lt]
    exact Nat.one_le_iff_ne_zero.mpr (by simpa using hne)
  have h2 : decide (mx < out.length) = false := by
    simp only [decide_eq_false_iff_not, Nat.not_lt]
    exact hmx
  have h3 : startsWithAny _alphanum_lower out = true := by
    cases hsf : _extract_safe_name name (M - 11).toNat with
    | nil => exact absurd hsf (extract_ne_nil _ _)
    | cons c cs =>
      rw [hsh, hsf]
      show _alphanum_lower.contains c = true
      have hmem : c ∈ "abcdefghijklmnopqrstuvwxyz0123456789-".data := by
        apply slug_mem
        have hall := extract_all name (M - 11).toNat
        rw [hsf, List.all_cons, Bool.and_eq_true] at hall
        exact hall.1
      have hch : c ≠ '-' := extract_head name (M - 11).toNat c (by rw [hsf]; rfl)
      exact slug_alphanum_lower c hmem hch
  have h4 : endsWithAny _alphanum_lower out = true := by
    have hhne : (sha256hex (utf8Encode name)).take 8 ≠ [] := hashTake_ne_nil _
    have hout : out.getLast? = ((sha256hex (utf8Encode name)).take 8).getLast? := by
      rw [hsh]
      rw [List.getLast?_append_of_ne_nil _ (by simp : ('-' :: '-' :: '-' ::
        (sha256hex (utf8Encode name)).take 8 : PyStr) ≠ [])]
      rw [List.getLast?_cons_cons, List.getLast?_cons_cons]
      show (['-'] ++ (sha256hex (utf8Encode name)).take 8).getLast?
        = ((sha256hex (utf8Encode name)).take 8).getLast?
      rw [List.getLast?_append_of_ne_nil _ hhne]
    rw [endsWithAny, hout]
    cases hlast : ((sha256hex (utf8Encode name)).take 8).getLast? with
    | none => exact absurd (List.getLast?_eq_none_iff.mp hlast) hhne
    | some c =>
      show _alphanum_lower.contains c = true
      have hcm : c ∈ (sha256hex (utf8Encode name)).take 8 := by
        obtain ⟨hne9, heq⟩ :=
          List.mem_getLast?_eq_getLast (Option.mem_def.mpr hlast)
        rw [heq]
        exact List.getLast_mem hne9
      exact hex_alphanum_lower c (hashTake_mem hcm)
  have h5 : objectPatternMatch out = true := by
    rw [objectPatternMatch, reFullMatch]
    have hall : allInClass objectClassChar out = true := by
      rw [allInClass, Bool.and_eq_true]
      refine ⟨by simpa using hne, ?_⟩
      rw [hsh, List.all_append]
      simp only [Bool.and_eq_true]
      constructor
      · exact List.all_eq_true.mpr fun c hc =>
          slug_object c (slug_mem ((List.all_eq_true.mp (extract_all _ _)) c hc))
      · simp only [List.all_cons, Bool.and_eq_true]
        refine ⟨by decide, by decide, by decide, ?_⟩
        exact List.all_eq_true.mpr fun c hc => hex_object c (hashTake_mem hc)
    rw [hall, Bool.true_or]
  simp [_is_valid_general, optNatTruthy, optStrTruthy, optPatTruthy, h1, h2, h3, h4, h5, hne]

/-! ### Dispatcher case analysis -/

theorem pyOr32_pos {M : Int} (h : M ≠ 0) : pyOr32 (some M) = M := by
  simp [pyOr32, h]

theorem safe_slug_cases {name : PyStr} {iv : PyStr → Bool} {m : Option Int} {out : PyStr}
    (h : safe_slug name iv m = some out) :
    (out = name ∧ iv name = true ∧ (∀ M, m = some M → (name.length : Int) ≤ M)) ∨
    strip_and_hash name (pyOr32 m) = some out := by
  rw [safe_slug.eq_def] at h
  split at h
  · exact Or.inr h
  · split at h
    · next hc =>
      rw [Bool.and_eq_true] at hc
      refine Or.inl ⟨(Option.some.inj h).symm, hc.1, ?_⟩
      intro M hM
      subst hM
      exact of_decide_eq_true hc.2
    · exact Or.inr h

/-! ## The claims -/

/-- C1: the claim states that `is_valid_label` accepts exactly the strings
that are empty, or have length ≤ 63, start and end with a letter or digit,
and consist of letters (either case), digits, '.', '-' and '_' — with the
pattern accepting exactly that character set.  In the code's pattern
`[a-z0-9\.-_]` the `\.-_` part is a character range from '.' to '_': the
pattern rejects the hyphen (so `"a-b"`, valid per the claim, is rejected)
and accepts ':' (so `"a:b"`, invalid per the claim, is accepted).  This
contradicts the code's own reference to the Kubernetes label rules and
the spec's explicit warning against inheriting the accidental range. -/
theorem C1_label_pattern_range :
    is_valid_label "a-b".data = false ∧ is_valid_label "a:b".data = true ∧
    labelPatternMatch "a-b".data = false ∧ labelPatternMatch "a:b".data = true := by
  decide

/-- C2 counterexample: `safe_slug "a.b"` (default rules, no maximum length)
returns `"a.b"` unchanged, which contains '.', outside `[a-z0-9-]`. -/
theorem C2_counterexample :
    safe_slug "a.b".data is_valid_default none = some "a.b".data ∧
    "a.b".data.all slugChar = false := by
  decide

/-- C2 (amended): every output of `strip_and_hash` and of `multi_slug` is a
nonempty string over `[a-z0-9-]`; an output of `safe_slug` is such a string
whenever it is not the input returned unchanged (pass-through outputs can
contain any character their validity rule allows, such as '.'). -/
theorem C2_amended :
    (∀ (name : PyStr) (M : Int) (out : PyStr), strip_and_hash name M = some out →
      out ≠ [] ∧ out.all slugChar = true) ∧
    (∀ (names : List PyStr) (M : Int) (out : PyStr), multi_slug names M = some out →
      out ≠ [] ∧ out.all slugChar = true) ∧
    (∀ (name : PyStr) (iv : PyStr → Bool) (m : Option Int) (out : PyStr),
      safe_slug name iv m = some out → out ≠ name →
      out ≠ [] ∧ out.all slugChar = true) := by
  refine ⟨fun name M out h => ⟨strip_ne_nil h, strip_all_slug h⟩, ?_, ?_⟩
  · intro names M out h
    obtain ⟨hne, hbud⟩ := multi_some_budget h
    cases names with
    | nil => exact absurd rfl hne
    | cons n0 rest =>
      rw [multi_slug_eq n0 rest M hbud] at h
      obtain rfl := (Option.some.inj h).symm
      refine ⟨by simp, ?_⟩
      rw [List.all_append]
      simp only [Bool.and_eq_true]
      constructor
      · apply pyJoin_all _ (by decide)
        intro s hsm
        obtain ⟨n, _, rfl⟩ := List.mem_map.mp hsm
        exact extract_all _ _
      · simp only [List.all_cons, Bool.and_eq_true]
        exact ⟨by decide, by decide, by decide,
          List.all_eq_true.mpr fun c hc => hex_slugChar c (hashTake_mem hc)⟩
  · intro name iv m out h hne
    rw [safe_slug.eq_def] at h
    split at h
    · exact ⟨strip_ne_nil h, strip_all_slug h⟩
    · split at h
      · exact absurd (Option.some.inj h).symm hne
      · exact ⟨strip_ne_nil h, strip_all_slug h⟩

/-- Witness for C2_amended: the hashed slug of `"a"` is nonempty and stays
inside `[a-z0-9-]`. -/
theorem C2_amended_witness :
    "a---ca978112".data ≠ ([] : PyStr) ∧ "a---ca978112".data.all slugChar = true :=
  C2_amended.1 "a".data 32 "a---ca978112".data rfl

/-- C3 counterexample: for the single-component list `["a"]` the
multi-component slug coincides with the single-name slug of `"a"` at the
same maximum length 32 (same per-name budget, same digest). -/
theorem C3_counterexample :
    multi_slug ["a".data] 32 = strip_and_hash "a".data 32 ∧
    multi_slug ["a".data] 32 = some "a---ca978112".data := by
  exact ⟨rfl, rfl⟩

/-- C3 (amended): for component lists with at least two components, no
output of `multi_slug` equals any output of `strip_and_hash` (for any
maximum lengths): a two-or-more-component slug contains a maximal run of
exactly two hyphens, a single-name slug never does (`countDouble` is
`number of components + 1 ≥ 3` versus exactly 2). -/
theorem C3_amended (n1 n2 : PyStr) (rest : List PyStr) (M : Int)
    (s : PyStr) (M2 : Int) (out out2 : PyStr)
    (h1 : multi_slug (n1 :: n2 :: rest) M = some out)
    (h2 : strip_and_hash s M2 = some out2) : out ≠ out2 := by
  have hd2 : countDouble out2 = 2 := strip_countDouble h2
  have hd : countDouble out = rest.length + 3 := by
    obtain ⟨hne, hbud⟩ := multi_some_budget h1
    rw [multi_slug_eq n1 (n2 :: rest) M hbud] at h1
    obtain rfl := (Option.some.inj h1).symm
    rw [countDouble_join _ (hashTake_not_hyphen _) _ ?props (by simp)]
    · simp
    case props =>
      intro t ht
      obtain ⟨n, _, rfl⟩ := List.mem_map.mp ht
      exact ⟨extract_ne_nil _ _, extract_noDouble _ _,
        fun a ha => extract_head _ _ a ha, fun a ha => extract_last _ _ a ha⟩
  intro heq
  rw [heq, hd2] at hd
  omega

/-- Witness for C3_amended at the concrete pair `["ab","c"]` / `"a"`. -/
theorem C3_amended_witness : "ab--c---3239f095".data ≠ "a---ca978112".data :=
  C3_amended "ab".data "c".data [] 32 "a".data 32
    "ab--c---3239f095".data "a---ca978112".data rfl rfl

set_option maxRecDepth 40000 in
/-- C4 counterexample: (1) with the label rules, the hashed slug of
`"a--b"` contains hyphens, which the (buggy) label pattern rejects, so the
result does not satisfy the predicate it was generated for; (2) with the
default rules and maximum length 200, the hashed slug of an 83-character
input is 93 characters long, exceeding the default rule's 63-character
cap, so it does not satisfy `is_valid_default` either. -/
theorem C4_counterexample :
    (safe_slug "a--b".data is_valid_label (some 32) = some "a-b---90827a2e".data ∧
      is_valid_label "a-b---90827a2e".data = false) ∧
    (safe_slug (List.replicate 80 'a' ++ "--x".data) is_valid_default (some 200)
        = some (List.replicate 80 'a' ++ "-x---515180fd".data) ∧
      is_valid_default (List.replicate 80 'a' ++ "-x---515180fd".data) = false) := by
  exact ⟨⟨rfl, rfl⟩, ⟨rfl, rfl⟩⟩

/-- C4 (amended): with a positive given maximum length that is at most the
rule set's own cap (63 for the default rules, 255 for object names), the
slug returned by `safe_slug` satisfies the rule set; and for every
validity predicate and positive given maximum length, the returned slug's
length is at most that maximum length.  (For `is_valid_label` the
rule-satisfaction half fails because the label pattern rejects hyphens —
see C1 — and for maximum lengths above the rule's own cap hashed outputs
can exceed the cap.) -/
theorem C4_amended :
    (∀ (s : PyStr) (M : Int) (out : PyStr), 0 < M → M ≤ 63 →
      safe_slug s is_valid_default (some M) = some out →
      is_valid_default out = true ∧ (out.length : Int) ≤ M) ∧
    (∀ (s : PyStr) (M : Int) (out : PyStr), 0 < M → M ≤ 255 →
      safe_slug s is_valid_object_name (some M) = some out →
      is_valid_object_name out = true ∧ (out.length : Int) ≤ M) ∧
    (∀ (s : PyStr) (iv : PyStr → Bool) (M : Int) (out : PyStr), 0 < M →
      safe_slug s iv (some M) = some out → (out.length : Int) ≤ M) := by
  refine ⟨?_, ?_, ?_⟩
  · intro s M out hM hM63 h
    rcases safe_slug_cases h with ⟨rfl, hv, hlen⟩ | hstrip
    · exact ⟨hv, hlen M rfl⟩
    · rw [pyOr32_pos (by omega)] at hstrip
      have hlen := strip_length hstrip
      refine ⟨?_, hlen⟩
      simp only [is_valid_default]
      exact strip_valid_general hstrip 63 (by omega)
  · intro s M out hM hM255 h
    rcases safe_slug_cases h with ⟨rfl, hv, hlen⟩ | hstrip
    · exact ⟨hv, hlen M rfl⟩
    · rw [pyOr32_pos (by omega)] at hstrip
      have hlen := strip_length hstrip
      refine ⟨?_, hlen⟩
      simp only [is_valid_object_name]
      exact strip_valid_general hstrip 255 (by omega)
  · intro s iv M out hM h
    rcases safe_slug_cases h with ⟨rfl, _, hlen⟩ | hstrip
    · exact hlen M rfl
    · rw [pyOr32_pos (by omega)] at hstrip
      exact strip_length hstrip

/-- Witness for C4_amended: the hashed slug of `"a--b"` under the default
rules at maximum length 32. -/
theorem C4_amended_witness :
    is_valid_default "a-b---90827a2e".data = true ∧
    (("a-b---90827a2e".data.length : Int) ≤ 32) :=
  C4_amended.1 "a--b".data 32 "a-b---90827a2e".data (by decide) (by decide) rfl

/-- C5: if `is_valid_default s` holds, `s` contains no `--`, and
`len(s) ≤ max_length`, then `safe_slug` returns `s` unchanged. -/
theorem C5_idempotence (s : PyStr) (m : Int) (h1 : is_valid_default s = true)
    (h2 : hasDoubleHyphen s = false) (h3 : (s.length : Int) ≤ m) :
    safe_slug s is_valid_default (some m) = some s := by
  rw [safe_slug, if_neg (by simp [h2])]
  rw [if_pos]
  rw [Bool.and_eq_true]
  exact ⟨h1, decide_eq_true h3⟩

/-- Witness for C5_idempotence at `"abc"`, maximum length 32. -/
theorem C5_witness : safe_slug "abc".data is_valid_default (some 32) = some "abc".data :=
  C5_idempotence "abc".data 32 (by decide) (by decide) (by decide)

/-- C6: for every string and maximum length M ≥ 12, `strip_and_hash` does
not raise and its result has length at most M. -/
theorem C6_length_bound (s : PyStr) (M : Int) (h : 12 ≤ M) :
    ∃ out, strip_and_hash s M = some out ∧ (out.length : Int) ≤ M :=
  ⟨_, strip_and_hash_eq s M h, strip_length (strip_and_hash_eq s M h)⟩

/-- Witness for C6_length_bound at `"a"`, maximum length 16. -/
theorem C6_witness :
    (12 : Int) ≤ 16 ∧
    ∃ out, strip_and_hash "a".data 16 = some out ∧ (out.length : Int) ≤ 16 :=
  ⟨by decide, C6_length_bound "a".data 16 (by decide)⟩

/-- C7: every result of `strip_and_hash` contains the substring `---`
exactly once and no other run of two or more consecutive hyphens: the
number of positions where `---` occurs is 1 and the number of positions
where `--` occurs is 2 (the two overlapping positions inside the one
`---`; any separate `--` run would make it ≥ 3, any `----` would make
the triple count ≥ 2). -/
theorem C7_delimiter (s : PyStr) (M : Int) (out : PyStr)
    (h : strip_and_hash s M = some out) :
    countTriple out = 1 ∧ countDouble out = 2 :=
  ⟨strip_countTriple h, strip_countDouble h⟩

/-- Witness for C7_delimiter on the slug of `"a"` at maximum length 16. -/
theorem C7_witness :
    countTriple "a---ca978112".data = 1 ∧ countDouble "a---ca978112".data = 2 :=
  C7_delimiter "a".data 16 "a---ca978112".data rfl

/-- C8: `strip_and_hash` raises exactly when the maximum length is
below 12, and `multi_slug` on a non-empty list raises exactly when the
per-component extraction budget `(M - 9) // len(names) - 2` is below 2;
neither condition depends on the strings' content. -/
theorem C8_config_errors (s : PyStr) (M : Int) (n0 : PyStr) (rest : List PyStr) :
    (strip_and_hash s M = none ↔ M < 12) ∧
    (multi_slug (n0 :: rest) M = none ↔
      Int.fdiv (M - 9) ((n0 :: rest).length : Int) - 2 < 2) := by
  constructor
  · constructor
    · intro h
      by_contra hM
      rw [strip_and_hash_eq s M (by omega)] at h
      simp at h
    · intro hM
      cases hm : strip_and_hash s M with
      | none => rfl
      | some out => exact absurd (strip_some_M hm) (by omega)
  · constructor
    · intro h
      by_contra hb
      rw [multi_slug_eq n0 rest M hb] at h
      simp at h
    · intro hb
      cases hm : multi_slug (n0 :: rest) M with
      | none => rfl
      | some out =>
        obtain ⟨_, hbud⟩ := multi_some_budget hm
        exact absurd hb hbud

/-- Witness for C8_config_errors at maximum length 5 (too small on both
operations). -/
theorem C8_witness :
    (strip_and_hash "a".data 5 = none ↔ (5 : Int) < 12) ∧
    (multi_slug ["a".data] 5 = none ↔
      Int.fdiv ((5 : Int) - 9) ((["a".data] : List PyStr).length : Int) - 2 < 2) :=
  C8_config_errors "a".data 5 "a".data []

/-- C9: for every string and maximum length ≥ 1, the extractor returns a
nonempty string of at most that many characters over `[a-z0-9-]` that
neither starts nor ends with a hyphen and contains no two consecutive
hyphens; and `_extract_safe_name("My--User_Name!!", 10) = "my-usernam"`. -/
theorem C9_extractor (s : PyStr) (m : Nat) (h : 1 ≤ m) :
    _extract_safe_name s m ≠ [] ∧
    (_extract_safe_name s m).length ≤ m ∧
    (_extract_safe_name s m).all slugChar = true ∧
    (∀ a, (_extract_safe_name s m).head? = some a → a ≠ '-') ∧
    (∀ a, (_extract_safe_name s m).getLast? = some a → a ≠ '-') ∧
    hasDoubleHyphen (_extract_safe_name s m) = false ∧
    _extract_safe_name "My--User_Name!!".data 10 = "my-usernam".data :=
  ⟨extract_ne_nil _ _, extract_length _ _ h, extract_all _ _,
   fun a ha => extract_head _ _ a ha, fun a ha => extract_last _ _ a ha,
   extract_noDouble _ _, by decide⟩

/-- Witness for C9_extractor at the spec's own vector. -/
theorem C9_witness :
    (1 : Nat) ≤ 10 ∧ _extract_safe_name "My--User_Name!!".data 10 ≠ [] :=
  ⟨by decide, (C9_extractor "My--User_Name!!".data 10 (by decide)).1⟩

/-- C10: calling `safe_slug` on a non-empty name with the explicit
argument `max_length = 0` does not raise: the falsy 0 is replaced by the
default 32 (`max_length or 32`), the pass-through branch is unreachable
(a non-empty name cannot have length ≤ 0), and the call returns
`strip_and_hash(name, 32)`, which always succeeds. -/
theorem C10_zero_max (name : PyStr) (iv : PyStr → Bool) (h : name ≠ []) :
    safe_slug name iv (some 0) = strip_and_hash name 32 ∧
    ∃ out, strip_and_hash name 32 = some out := by
  have hd : decide ((name.length : Int) ≤ 0) = false := by
    rw [decide_eq_false_iff_not]
    have := List.length_pos.mpr h
    omega
  constructor
  · simp [safe_slug, pyOr32, hd, h]
  · exact ⟨_, strip_and_hash_eq name 32 (by norm_num)⟩

/-- Witness for C10_zero_max at `"a"` with the default validity rules. -/
theorem C10_witness :
    safe_slug "a".data is_valid_default (some 0) = strip_and_hash "a".data 32 ∧
    ∃ out, strip_and_hash "a".data 32 = some out :=
  C10_zero_max "a".data is_valid_default (by decide)

end Slugs

